import Mathlib

/-!
Shallow embedding of the Extra-Class-Lesson backend (Express + MongoDB).

The repository contains four near-duplicate servers:
  * `src/server.js`                         — embedded with suffix `S`;
  * `src/unnamed/part_000`, first section   — transactional variant, suffix `Txn`;
  * `src/unnamed/part_000`, second section  — read-only (no order routes), nothing to embed;
  * `src/unnamed/part_000`, third section   — totalPrice variant, suffix `U`.

Modelling conventions:
  * A MongoDB collection is an association list from a `Nat` identifier to a
    document; `findOneAndUpdate`/`updateOne`/`deleteOne` act on the first
    matching entry, `lookupL` returns the first matching entry, as Mongo's
    `_id` index does.
  * JS numbers in `spaces`, `price`, `quantity` are modelled as `Int`
    (the code performs only `$inc` / comparison on them; none of the claims
    depends on float rounding).
  * Request bodies always carry the `lessonIDs` and `items` fields as lists
    (in JS, a present array — including `[]` — is truthy, so the `!lessonIDs`
    and `!items` guards only fire on absent fields, which the embedding does
    not model; `!items.length` is modelled as `items = []`).
  * `insertOne` failures are modelled by the `insertOk : Bool` parameter:
    `false` makes the insert throw (caught by the route's `catch` in
    `server.js`, aborting the transaction in the `Txn` variant).
  * `createdAt` timestamps are not modelled (no claim mentions them).
  * Each operation also returns the list of capacity-store / order-ledger
    write events it issued, in program order, to state ordering claims.
-/

namespace ExtraClass

/-- A lesson document, as seeded by `src/seed.js` and mutated by the servers.
`spaces` is the remaining-seat count; it is an `Int` because nothing in the
code prevents it from being driven below zero. -/
structure Lesson where
  subject : String
  location : String
  price : Int
  spaces : Int
  image : String
  title : String
  lessonText : String
  date : String
deriving DecidableEq

abbrev LessonId := Nat
abbrev OrderId := Nat
abbrev Lessons := List (LessonId × Lesson)

/-- One entry of a request's `items` array (totalPrice variant reads
`lessonId`, `price`, `quantity` from it). -/
structure Item where
  lessonId : LessonId
  price : Int
  quantity : Int
deriving DecidableEq

/-- An order document as inserted by the `POST /orders` routes.
`totalPrice` is `some _` only in the totalPrice variant. -/
structure Order where
  name : String
  phone : String
  lessonIDs : List LessonId
  items : List Item
  totalPrice : Option Int
deriving DecidableEq

/-- The database state: the `lessons` and `orders` collections, plus the
counter generating fresh order identifiers (modelling Mongo's fresh
`_id` on `insertOne`). -/
structure Store where
  lessons : Lessons
  orders : List (OrderId × Order)
  nextOrderId : OrderId
deriving DecidableEq

/-- The body of a `POST /orders` request. -/
structure OrderReq where
  name : String
  phone : String
  lessonIDs : List LessonId
  items : List Item
deriving DecidableEq

/-- The body of a `PUT /lessons/:id` request, restricted to the keys that
name fields of a stored lesson.  `subject`, `location`, `image` are NOT in
the `allowedFields` whitelist of `server.js`. -/
structure LessonUpdate where
  title : Option String
  lessonText : Option String
  spaces : Option Int
  date : Option String
  price : Option Int
  subject : Option String
  location : Option String
  image : Option String
deriving DecidableEq

/-- A write event against the two collections, in program order. -/
inductive Ev where
  | reserve (lessonId : LessonId)
  | persist (orderId : OrderId)
  | release (lessonId : LessonId)
deriving DecidableEq

/-- Outcome of a `POST /orders` route, one constructor per distinct
response the code can produce. -/
inductive CreateResult where
  | created (orderId : OrderId)
  | invalidInput
  | capacityExceeded (lessonId : LessonId)
  | lessonNotFound (lessonId : LessonId)
  | persistFailure
deriving DecidableEq

/-- Outcome of a `DELETE /orders/:id` route. -/
inductive CancelResult where
  | deleted
  | notFound
deriving DecidableEq

/-- First-match lookup in a collection, as Mongo's `_id` filter. -/
def lookupL {α : Type} : List (Nat × α) → Nat → Option α
  | [], _ => none
  | (k, v) :: rest, id => if k = id then some v else lookupL rest id

/-- Replace the first entry with key `id` by `v` (`findOneAndUpdate` /
`updateOne` write-back); a miss leaves the collection unchanged. -/
def setEntry {α : Type} : List (Nat × α) → Nat → α → List (Nat × α)
  | [], _, _ => []
  | (k, v) :: rest, id, w => if k = id then (k, w) :: rest else (k, v) :: setEntry rest id w

/-- Remove the first entry with key `id` (`deleteOne`). -/
def removeEntry {α : Type} : List (Nat × α) → Nat → List (Nat × α)
  | [], _ => []
  | (k, v) :: rest, id => if k = id then rest else (k, v) :: removeEntry rest id

/-- One conditional reservation, from `server.js` lines 148-152 (and
`adjustLessonSpaces` with `increment = -1` in `part_000`):
`findOneAndUpdate({_id: lessonId, spaces: {$gt: 0}}, {$inc: {spaces: -1}})`.
Returns `none` (the route's rejection) when the lesson is absent or has no
space left. -/
def tryReserveOne (ls : Lessons) (id : LessonId) : Option Lessons :=
  match lookupL ls id with
  | some l => if 0 < l.spaces then some (setEntry ls id { l with spaces := l.spaces - 1 }) else none
  | none => none

/-- One unconditional release, from `server.js` lines 192-195 (and
`adjustLessonSpaces` with `increment = 1`):
`updateOne({_id: lessonId}, {$inc: {spaces: 1}})`; a missing lesson matches
nothing and is skipped. -/
def releaseOne (ls : Lessons) (id : LessonId) : Lessons :=
  match lookupL ls id with
  | some l => setEntry ls id { l with spaces := l.spaces + 1 }
  | none => ls

/-- The reservation loop of `POST /orders` (`for lessonId of lessonIDs`):
stops at the first rejected lesson, returning its identifier together with
the state as mutated so far (the loop does not undo earlier decrements). -/
def reserveAll (ls : Lessons) : List LessonId → Option LessonId × Lessons × List Ev
  | [] => (none, ls, [])
  | id :: rest =>
    match tryReserveOne ls id with
    | none => (some id, ls, [])
    | some ls₁ =>
      let r := reserveAll ls₁ rest
      (r.1, r.2.1, Ev.reserve id :: r.2.2)

/-- The restore loop of `DELETE /orders/:id` (`for lessonId of order.lessonIDs`). -/
def releaseAll (ls : Lessons) : List LessonId → Lessons × List Ev
  | [] => (ls, [])
  | id :: rest =>
    let r := releaseAll (releaseOne ls id) rest
    (r.1, Ev.release id :: r.2)

/-- Append a new order under a fresh identifier (`insertOne` into `orders`). -/
def insertOrder (s : Store) (o : Order) : OrderId × Store :=
  (s.nextOrderId,
    { s with orders := s.orders ++ [(s.nextOrderId, o)], nextOrderId := s.nextOrderId + 1 })

/-- The `POST /orders` route of `src/server.js` (lines 139-177): validate,
reserve one unit per entry of `lessonIDs` with early return and NO unwind,
then insert the order.  `insertOk = false` models `insertOne` throwing,
which the route's `catch` turns into a 500 with the decrements kept. -/
def createOrderS (insertOk : Bool) (s : Store) (r : OrderReq) : CreateResult × Store × List Ev :=
  if r.name = "" ∨ r.phone = "" ∨ r.items = [] then (.invalidInput, s, [])
  else
    let rr := reserveAll s.lessons r.lessonIDs
    match rr.1 with
    | some failedId => (.capacityExceeded failedId, { s with lessons := rr.2.1 }, rr.2.2)
    | none =>
      if insertOk then
        let io := insertOrder { s with lessons := rr.2.1 }
          { name := r.name, phone := r.phone, lessonIDs := r.lessonIDs,
            items := r.items, totalPrice := none }
        (.created io.1, io.2, rr.2.2 ++ [Ev.persist io.1])
      else (.persistFailure, { s with lessons := rr.2.1 }, rr.2.2)

/-- The `POST /orders` route of `part_000`, first section (lines 170-190):
same validation (`validateOrderData`) and the same per-unit reservation loop
(`adjustLessonSpaces(lessonIDs, -1, session)`), but inside
`session.withTransaction`: any thrown rejection, or a failing `insertOne`,
aborts the transaction and rolls every write back, so the pre-call store is
returned on every failure. -/
def createOrderTxn (insertOk : Bool) (s : Store) (r : OrderReq) : CreateResult × Store × List Ev :=
  if r.name = "" ∨ r.phone = "" ∨ r.items = [] then (.invalidInput, s, [])
  else
    let rr := reserveAll s.lessons r.lessonIDs
    match rr.1 with
    | some failedId => (.capacityExceeded failedId, s, rr.2.2)
    | none =>
      if insertOk then
        let io := insertOrder { s with lessons := rr.2.1 }
          { name := r.name, phone := r.phone, lessonIDs := r.lessonIDs,
            items := r.items, totalPrice := none }
        (.created io.1, io.2, rr.2.2 ++ [Ev.persist io.1])
      else (.persistFailure, s, rr.2.2)

/-- The `DELETE /orders/:id` route of `src/server.js` (lines 182-206):
look the order up (404 on a miss, with no write), release one unit per
entry of its `lessonIDs`, then delete the order document.  The
transactional `DELETE` of `part_000` has the same state semantics. -/
def cancelOrderS (s : Store) (oid : OrderId) : CancelResult × Store × List Ev :=
  match lookupL s.orders oid with
  | none => (.notFound, s, [])
  | some o =>
    let r := releaseAll s.lessons o.lessonIDs
    (.deleted, { s with lessons := r.1, orders := removeEntry s.orders oid }, r.2)

/-- The precheck loop of the totalPrice variant (`part_000` lines 466-470):
for each item, `findOne` the lesson (404 on a miss) and reject with 400 when
`lesson.spaces < item.quantity`.  Reads only; writes nothing. -/
def precheckU (ls : Lessons) : List Item → Option CreateResult
  | [] => none
  | i :: rest =>
    match lookupL ls i.lessonId with
    | none => some (.lessonNotFound i.lessonId)
    | some l => if l.spaces < i.quantity then some (.capacityExceeded i.lessonId) else precheckU ls rest

/-- The decrement loop of the totalPrice variant (`part_000` lines 478-483):
`updateOne({_id: item.lessonId}, {$inc: {spaces: -item.quantity}})` for each
item, unconditionally; a missing lesson matches nothing. -/
def decQtyAll (ls : Lessons) : List Item → Lessons × List Ev
  | [] => (ls, [])
  | i :: rest =>
    match lookupL ls i.lessonId with
    | some l =>
      let r := decQtyAll (setEntry ls i.lessonId { l with spaces := l.spaces - i.quantity }) rest
      (r.1, Ev.reserve i.lessonId :: r.2)
    | none => decQtyAll ls rest

/-- The `POST /orders` route of `part_000`, third section (lines 457-490):
validate (`items` is NOT checked for emptiness, `lessonIDs` must be a
non-empty array), precheck every item's quantity against the stored spaces,
compute `totalPrice` from the request's own `price`/`quantity` fields,
INSERT THE ORDER, and only then decrement each lesson unconditionally. -/
def createOrderU (s : Store) (r : OrderReq) : CreateResult × Store × List Ev :=
  if r.name = "" ∨ r.phone = "" ∨ r.lessonIDs = [] then (.invalidInput, s, [])
  else
    match precheckU s.lessons r.items with
    | some err => (err, s, [])
    | none =>
      let total := r.items.foldl (fun acc i => acc + i.price * i.quantity) 0
      let io := insertOrder s
        { name := r.name, phone := r.phone, lessonIDs := r.lessonIDs,
          items := r.items, totalPrice := some total }
      let d := decQtyAll io.2.lessons r.items
      (.created io.1, { io.2 with lessons := d.1 }, Ev.persist io.1 :: d.2)

/-- The whitelist filter `validateLessonUpdate` / `allowedFields` of
`server.js` lines 102-106: only `title`, `description` (here `lessonText`),
`spaces`, `date`, `price` are copied from the request body. -/
def applyWhitelisted (l : Lesson) (u : LessonUpdate) : Lesson :=
  { l with
    title := u.title.getD l.title
    lessonText := u.lessonText.getD l.lessonText
    spaces := u.spaces.getD l.spaces
    date := u.date.getD l.date
    price := u.price.getD l.price }

/-- The unfiltered `$set: updates` of `part_000` lines 498-501: every key
present in the body is written, including non-whitelisted ones. -/
def applyAllFields (l : Lesson) (u : LessonUpdate) : Lesson :=
  { applyWhitelisted l u with
    subject := u.subject.getD l.subject
    location := u.location.getD l.location
    image := u.image.getD l.image }

/-- The `PUT /lessons/:id` route of `src/server.js` (lines 97-121):
`findOneAndUpdate` with the whitelisted `$set`; `none` is the 404. -/
def updateLessonS (s : Store) (id : LessonId) (u : LessonUpdate) : Option Store :=
  match lookupL s.lessons id with
  | none => none
  | some l => some { s with lessons := setEntry s.lessons id (applyWhitelisted l u) }

/-- The `PUT /lessons/:id` route of `part_000`, third section (lines
493-511): `updateOne` with the raw body as `$set`. -/
def updateLessonU (s : Store) (id : LessonId) (u : LessonUpdate) : Option Store :=
  match lookupL s.lessons id with
  | none => none
  | some l => some { s with lessons := setEntry s.lessons id (applyAllFields l u) }

/-- Remaining-seat count of a lesson, the quantity the claims track. -/
def spacesOf (s : Store) (id : LessonId) : Option Int :=
  (lookupL s.lessons id).map Lesson.spaces

/-- The spec's invariant: no lesson's remaining-seat count is negative. -/
def lessonsNonneg (s : Store) : Prop :=
  ∀ p ∈ s.lessons, 0 ≤ p.2.spaces

instance (s : Store) : Decidable (lessonsNonneg s) :=
  List.decidableBAll _ s.lessons

/-- Event e is a reservation (capacity decrement). -/
def Ev.isReserve : Ev → Bool
  | .reserve _ => true
  | _ => false

/-- Event e is an order persistence. -/
def Ev.isPersist : Ev → Bool
  | .persist _ => true
  | _ => false

/-- Holds when no capacity decrement is issued after an order has been
persisted (the "persist strictly after all reservations" trace shape). -/
def noReserveAfterPersist : List Ev → Bool
  | [] => true
  | e :: rest =>
    if e.isPersist then rest.all (fun x => !x.isReserve) else noReserveAfterPersist rest

/-! ### Association-list lemmas -/

theorem lookupL_mem {α : Type} (ls : List (Nat × α)) (id : Nat) (v : α)
    (h : lookupL ls id = some v) : (id, v) ∈ ls := by
  induction ls with
  | nil => simp [lookupL] at h
  | cons p rest ih =>
    obtain ⟨k, w⟩ := p
    by_cases hk : k = id
    · subst hk
      simp [lookupL] at h
      subst h
      exact List.mem_cons_self _ _
    · simp [lookupL, hk] at h
      exact List.mem_cons_of_mem _ (ih h)

theorem lookupL_setEntry_self {α : Type} (ls : List (Nat × α)) (id : Nat) (v w : α)
    (h : lookupL ls id = some w) : lookupL (setEntry ls id v) id = some v := by
  induction ls with
  | nil => simp [lookupL] at h
  | cons p rest ih =>
    obtain ⟨k, x⟩ := p
    by_cases hk : k = id
    · subst hk
      simp [setEntry, lookupL]
    · simp [lookupL, hk] at h
      simp [setEntry, lookupL, hk]
      exact ih h

theorem lookupL_setEntry_ne {α : Type} (ls : List (Nat × α)) (id k : Nat) (v : α)
    (h : k ≠ id) : lookupL (setEntry ls id v) k = lookupL ls k := by
  induction ls with
  | nil => simp [setEntry]
  | cons p rest ih =>
    obtain ⟨k', x⟩ := p
    by_cases hk : k' = id
    · subst hk
      simp [setEntry, lookupL, Ne.symm h]
    · simp [setEntry, lookupL, hk]
      by_cases hk2 : k' = k
      · simp [hk2]
      · simp [hk2]
        exact ih

theorem mem_setEntry {α : Type} (ls : List (Nat × α)) (id : Nat) (v : α) (p : Nat × α)
    (h : p ∈ setEntry ls id v) : p.2 = v ∨ p ∈ ls := by
  induction ls with
  | nil => simp [setEntry] at h
  | cons q rest ih =>
    obtain ⟨k, x⟩ := q
    by_cases hk : k = id
    · subst hk
      simp [setEntry] at h
      rcases h with h | h
      · left; rw [h]
      · right; exact List.mem_cons_of_mem _ h
    · simp [setEntry, hk] at h
      rcases h with h | h
      · right; rw [h]; exact List.mem_cons_self _ _
      · rcases ih h with h' | h'
        · left; exact h'
        · right; exact List.mem_cons_of_mem _ h'

theorem lookupL_append_fresh {α : Type} (os : List (Nat × α)) (k : Nat) (v : α)
    (h : ∀ p ∈ os, p.1 ≠ k) : lookupL (os ++ [(k, v)]) k = some v := by
  induction os with
  | nil => simp [lookupL]
  | cons p rest ih =>
    obtain ⟨k', w⟩ := p
    have hne : k' ≠ k := h (k', w) (List.mem_cons_self _ _)
    simp only [List.cons_append, lookupL, if_neg hne]
    exact ih fun q hq => h q (List.mem_cons_of_mem _ hq)

theorem lookupL_not_mem_keys {α : Type} (os : List (Nat × α)) (k : Nat)
    (h : k ∉ os.map Prod.fst) : lookupL os k = none := by
  induction os with
  | nil => rfl
  | cons p rest ih =>
    obtain ⟨k', v⟩ := p
    simp only [List.map_cons, List.mem_cons] at h
    push_neg at h
    simp only [lookupL, if_neg (fun hh : k' = k => h.1 hh.symm)]
    exact ih h.2

theorem lookupL_removeEntry_self_of_nodup {α : Type} (os : List (Nat × α)) (id : Nat)
    (h : (os.map Prod.fst).Nodup) : lookupL (removeEntry os id) id = none := by
  induction os with
  | nil => rfl
  | cons p rest ih =>
    obtain ⟨k, v⟩ := p
    simp only [List.map_cons, List.nodup_cons] at h
    by_cases hk : k = id
    · subst hk
      simp only [removeEntry, if_pos rfl]
      exact lookupL_not_mem_keys rest k h.1
    · simp only [removeEntry, if_neg hk, lookupL, if_neg hk]
      exact ih h.2

/-! ### Reservation / release loop characterizations -/

theorem tryReserveOne_some_spec (ls ls₁ : Lessons) (id : LessonId)
    (h : tryReserveOne ls id = some ls₁) :
    ∃ l, lookupL ls id = some l ∧ 0 < l.spaces ∧
      (∀ k, lookupL ls₁ k =
        if k = id then some { l with spaces := l.spaces - 1 } else lookupL ls k) := by
  cases hl : lookupL ls id with
  | none =>
    rw [tryReserveOne, hl] at h
    exact absurd h (by simp)
  | some l =>
    by_cases hs : 0 < l.spaces
    · have hset : tryReserveOne ls id = some (setEntry ls id { l with spaces := l.spaces - 1 }) := by
        rw [tryReserveOne, hl]
        simp [hs]
      have hls₁ : ls₁ = setEntry ls id { l with spaces := l.spaces - 1 } :=
        (Option.some.inj (hset.symm.trans h)).symm
      refine ⟨l, rfl, hs, fun k => ?_⟩
      subst hls₁
      by_cases hk : k = id
      · subst hk
        rw [if_pos rfl]
        exact lookupL_setEntry_self ls k _ l hl
      · rw [if_neg hk]
        exact lookupL_setEntry_ne ls id k _ hk
    · have hnone : tryReserveOne ls id = none := by
        rw [tryReserveOne, hl]
        simp [hs]
      rw [hnone] at h
      exact absurd h (by simp)

theorem releaseOne_lookup (ls : Lessons) (id k : LessonId) :
    lookupL (releaseOne ls id) k =
      if k = id then (lookupL ls id).map (fun l => { l with spaces := l.spaces + 1 })
      else lookupL ls k := by
  unfold releaseOne
  cases hl : lookupL ls id with
  | none =>
    by_cases hk : k = id
    · subst hk; simp [hl]
    · simp [hk]
  | some l =>
    by_cases hk : k = id
    · subst hk
      simp only [if_pos rfl, Option.map_some']
      exact lookupL_setEntry_self ls k _ l hl
    · simp only [if_neg hk]
      exact lookupL_setEntry_ne ls id k _ hk

theorem setSpaces_congr (l : Lesson) {a b : Int} (h : a = b) :
    ({ l with spaces := a } : Lesson) = { l with spaces := b } := by rw [h]

theorem releaseAll_lookup (ids : List LessonId) (ls : Lessons) (k : LessonId) :
    lookupL (releaseAll ls ids).1 k =
      (lookupL ls k).map (fun l => { l with spaces := l.spaces + (ids.count k : Int) }) := by
  induction ids generalizing ls with
  | nil =>
    simp only [releaseAll, List.count_nil]
    cases lookupL ls k with
    | none => rfl
    | some l => simp
  | cons id rest ih =>
    simp only [releaseAll]
    rw [ih (releaseOne ls id), releaseOne_lookup ls id k]
    by_cases hk : k = id
    · subst hk
      rw [if_pos rfl]
      cases hls : lookupL ls k with
      | none => rfl
      | some l =>
        simp only [Option.map_some']
        refine congrArg some ?_
        have hc : ((k :: rest).count k : Int) = (rest.count k : Int) + 1 := by
          rw [List.count_cons_self]
          push_cast
          ring
        have hsp : l.spaces + 1 + (rest.count k : Int) = l.spaces + ((k :: rest).count k : Int) := by
          rw [hc]
          ring
        exact setSpaces_congr l hsp
    · rw [if_neg hk, List.count_cons_of_ne hk]

theorem reserveAll_ok_lookup (ids : List LessonId) (ls ls' : Lessons) (evs : List Ev)
    (h : reserveAll ls ids = (none, ls', evs)) (k : LessonId) :
    lookupL ls' k =
      (lookupL ls k).map (fun l => { l with spaces := l.spaces - (ids.count k : Int) }) := by
  induction ids generalizing ls evs with
  | nil =>
    simp only [reserveAll, Prod.mk.injEq] at h
    rw [← h.2.1]
    simp only [List.count_nil]
    cases lookupL ls k with
    | none => rfl
    | some l => simp
  | cons id rest ih =>
    simp only [reserveAll] at h
    cases hr : tryReserveOne ls id with
    | none => rw [hr] at h; simp at h
    | some ls₁ =>
      rw [hr] at h
      simp only [Prod.mk.injEq] at h
      obtain ⟨h1, h2, _⟩ := h
      have hrec : reserveAll ls₁ rest = (none, ls', (reserveAll ls₁ rest).2.2) := by
        rw [Prod.ext_iff]
        refine ⟨h1, ?_⟩
        rw [Prod.ext_iff]
        exact ⟨h2, rfl⟩
      have ihk := ih ls₁ _ hrec
      obtain ⟨l, hl, hpos, hlook⟩ := tryReserveOne_some_spec ls ls₁ id hr
      rw [ihk, hlook k]
      by_cases hk : k = id
      · subst hk
        rw [if_pos rfl, hl]
        simp only [Option.map_some']
        refine congrArg some ?_
        have hc : ((k :: rest).count k : Int) = (rest.count k : Int) + 1 := by
          rw [List.count_cons_self]
          push_cast
          ring
        have hsp : l.spaces - 1 - (rest.count k : Int) = l.spaces - ((k :: rest).count k : Int) := by
          rw [hc]
          ring
        exact setSpaces_congr l hsp
      · rw [if_neg hk, List.count_cons_of_ne hk]

/-! ### Structural form of a successful reservation -/

theorem tryReserveOne_eq_setEntry (ls ls₁ : Lessons) (id : LessonId)
    (h : tryReserveOne ls id = some ls₁) :
    ∃ l, lookupL ls id = some l ∧ 0 < l.spaces ∧
      ls₁ = setEntry ls id { l with spaces := l.spaces - 1 } := by
  cases hl : lookupL ls id with
  | none =>
    rw [tryReserveOne, hl] at h
    exact absurd h (by simp)
  | some l =>
    by_cases hs : 0 < l.spaces
    · have hset : tryReserveOne ls id = some (setEntry ls id { l with spaces := l.spaces - 1 }) := by
        rw [tryReserveOne, hl]
        simp [hs]
      exact ⟨l, rfl, hs, (Option.some.inj (hset.symm.trans h)).symm⟩
    · have hnone : tryReserveOne ls id = none := by
        rw [tryReserveOne, hl]
        simp [hs]
      rw [hnone] at h
      exact absurd h (by simp)

/-! ### Nonnegativity preservation -/

theorem reserveAll_nonneg (ids : List LessonId) (ls : Lessons)
    (h : ∀ p ∈ ls, 0 ≤ p.2.spaces) :
    ∀ p ∈ (reserveAll ls ids).2.1, 0 ≤ p.2.spaces := by
  induction ids generalizing ls with
  | nil => exact h
  | cons id rest ih =>
    simp only [reserveAll]
    cases hr : tryReserveOne ls id with
    | none => exact h
    | some ls₁ =>
      obtain ⟨l, hl, hpos, hset⟩ := tryReserveOne_eq_setEntry ls ls₁ id hr
      refine ih ls₁ (fun p hp => ?_)
      subst hset
      rcases mem_setEntry ls id _ p hp with h' | h'
      · rw [h']
        simp only
        omega
      · exact h p h'

theorem releaseOne_nonneg (ls : Lessons) (id : LessonId)
    (h : ∀ p ∈ ls, 0 ≤ p.2.spaces) :
    ∀ p ∈ releaseOne ls id, 0 ≤ p.2.spaces := by
  unfold releaseOne
  cases hl : lookupL ls id with
  | none => exact h
  | some l =>
    intro p hp
    rcases mem_setEntry ls id _ p hp with h' | h'
    · rw [h']
      have := h (id, l) (lookupL_mem ls id l hl)
      simp only at this ⊢
      omega
    · exact h p h'

theorem releaseAll_nonneg (ids : List LessonId) (ls : Lessons)
    (h : ∀ p ∈ ls, 0 ≤ p.2.spaces) :
    ∀ p ∈ (releaseAll ls ids).1, 0 ≤ p.2.spaces := by
  induction ids generalizing ls with
  | nil => exact h
  | cons id rest ih =>
    simp only [releaseAll]
    exact ih (releaseOne ls id) (releaseOne_nonneg ls id h)

/-! ### Event-trace shape lemmas -/

theorem isPersist_eq_false_of_isReserve (e : Ev) (h : e.isReserve = true) :
    e.isPersist = false := by
  cases e <;> simp_all [Ev.isReserve, Ev.isPersist]

theorem reserveAll_events_reserve (ids : List LessonId) (ls : Lessons) :
    ∀ e ∈ (reserveAll ls ids).2.2, e.isReserve = true := by
  induction ids generalizing ls with
  | nil => simp [reserveAll]
  | cons id rest ih =>
    simp only [reserveAll]
    cases hr : tryReserveOne ls id with
    | none => simp
    | some ls₁ =>
      intro e he
      simp only [List.mem_cons] at he
      rcases he with he | he
      · rw [he]; rfl
      · exact ih ls₁ e he

theorem noReserveAfterPersist_of_all_reserve (evs : List Ev)
    (h : ∀ e ∈ evs, e.isReserve = true) : noReserveAfterPersist evs = true := by
  induction evs with
  | nil => rfl
  | cons e rest ih =>
    have he : e.isReserve = true := h e (List.mem_cons_self _ _)
    simp only [noReserveAfterPersist, isPersist_eq_false_of_isReserve e he]
    exact ih fun x hx => h x (List.mem_cons_of_mem _ hx)

theorem noReserveAfterPersist_append_persist (evs : List Ev) (oid : OrderId)
    (h : ∀ e ∈ evs, e.isReserve = true) :
    noReserveAfterPersist (evs ++ [Ev.persist oid]) = true := by
  induction evs with
  | nil => rfl
  | cons e rest ih =>
    have he : e.isReserve = true := h e (List.mem_cons_self _ _)
    simp only [List.cons_append, noReserveAfterPersist,
      isPersist_eq_false_of_isReserve e he]
    exact ih fun x hx => h x (List.mem_cons_of_mem _ hx)

/-! ### Concrete fixtures for counterexamples and witnesses -/

/-- A concrete lesson in the shape seeded by `src/seed.js`. -/
def mathLesson : Lesson :=
  { subject := "Math", location := "Room 101", price := 15, spaces := 5,
    image := "/images/math.jpg", title := "Math", lessonText := "Maths", date := "2025-01-01" }

/-- The seeded lesson with a chosen remaining-seat count. -/
def lessonWith (sp : Int) : Lesson := { mathLesson with spaces := sp }

/-- Store with lesson 1 at 5 remaining seats and lesson 2 fully booked. -/
def storeAB : Store :=
  { lessons := [(1, lessonWith 5), (2, lessonWith 0)], orders := [], nextOrderId := 0 }

/-- Request reserving one unit of lesson 1 and one of lesson 2. -/
def reqAB : OrderReq :=
  { name := "Alice", phone := "0123456789", lessonIDs := [1, 2],
    items := [⟨1, 15, 1⟩, ⟨2, 15, 1⟩] }

/-- Store with a single lesson having exactly 1 remaining seat. -/
def storeOne : Store :=
  { lessons := [(1, lessonWith 1)], orders := [], nextOrderId := 0 }

/-- Request naming the same lesson in two separate items (1 unit each). -/
def reqDup : OrderReq :=
  { name := "Bob", phone := "077", lessonIDs := [1],
    items := [⟨1, 10, 1⟩, ⟨1, 10, 1⟩] }

/-- Request reserving a single unit of lesson 1. -/
def reqOneUnit : OrderReq :=
  { name := "Gil", phone := "090", lessonIDs := [1], items := [⟨1, 15, 1⟩] }

/-- Request asking for two units of lesson 1, encoded as `server.js` encodes
multi-unit bookings: the lesson listed once per unit in `lessonIDs`. -/
def reqTwoUnits : OrderReq :=
  { name := "Cara", phone := "020", lessonIDs := [1, 1], items := [⟨1, 15, 2⟩] }

/-! ### Claim C1 -/

/-- C1 counterexample: on `src/server.js` `POST /orders`, with lesson 1 at 5
seats and lesson 2 at 0, the request reserving both fails with
CapacityExceeded and persists no order, but lesson 1 is left at 4 seats —
the reservation already taken in the attempt is NOT released, so the claim
as stated is false at this input. -/
theorem c1_counterexample :
    (createOrderS true storeAB reqAB).1 = CreateResult.capacityExceeded 2 ∧
    (createOrderS true storeAB reqAB).2.1.orders = [] ∧
    spacesOf storeAB 1 = some 5 ∧
    spacesOf (createOrderS true storeAB reqAB).2.1 1 = some 4 := by
  decide

/-- C1 (amended): when a reservation is rejected for insufficient capacity,
the transactional variant of `POST /orders` (part_000, first section) fails
with CapacityExceeded and rolls the whole attempt back — no order is
persisted and every lesson keeps its pre-call remaining count, the store
being returned unchanged; `src/server.js` also fails and persists no order,
but does not release the reservations already taken. -/
theorem c1_amended (insertOk : Bool) (s : Store) (r : OrderReq) (fid : LessonId) :
    (∀ s₁ evs, createOrderTxn insertOk s r = (.capacityExceeded fid, s₁, evs) → s₁ = s) ∧
    (∀ s₁ evs, createOrderS insertOk s r = (.capacityExceeded fid, s₁, evs) →
      s₁.orders = s.orders) := by
  constructor
  · intro s₁ evs h
    simp only [createOrderTxn] at h
    split at h
    · simp at h
    · split at h
      · simp only [Prod.mk.injEq] at h
        exact h.2.1.symm
      · split at h <;> simp at h
  · intro s₁ evs h
    simp only [createOrderS] at h
    split at h
    · simp at h
    · split at h
      · simp only [Prod.mk.injEq] at h
        rw [← h.2.1]
      · split at h <;> simp at h

/-- Witness: `c1_amended` applied at the concrete rejected request. -/
theorem c1_amended_witness :
    (createOrderTxn true storeAB reqAB).2.1 = storeAB ∧
    (createOrderS true storeAB reqAB).2.1.orders = storeAB.orders :=
  ⟨(c1_amended true storeAB reqAB 2).1 (createOrderTxn true storeAB reqAB).2.1
      (createOrderTxn true storeAB reqAB).2.2 (by decide),
   (c1_amended true storeAB reqAB 2).2 (createOrderS true storeAB reqAB).2.1
      (createOrderS true storeAB reqAB).2.2 (by decide)⟩

/-! ### Claim C2 -/

/-- C2 counterexample: the totalPrice variant of `POST /orders` (part_000,
third section) prechecks each item against the stored count separately and
then decrements unconditionally, so a request naming the same 1-seat lesson
in two items passes the precheck and drives the count to -1. -/
theorem c2_counterexample :
    lessonsNonneg storeOne ∧
    (createOrderU storeOne reqDup).1 = CreateResult.created 0 ∧
    spacesOf (createOrderU storeOne reqDup).2.1 1 = some (-1) ∧
    ¬ lessonsNonneg (createOrderU storeOne reqDup).2.1 := by
  decide

/-- C2 (amended): order creation through `src/server.js` or the
transactional variant, and order cancellation, preserve nonnegativity of
every lesson's remaining-seat count (their decrements are guarded by
`spaces > 0`); the totalPrice variant's unconditional decrement and the
`PUT /lessons/:id` direct write to `spaces` are the paths that can make a
count negative. -/
theorem c2_amended (insertOk : Bool) (s : Store) (r : OrderReq) (oid : OrderId)
    (h : lessonsNonneg s) :
    lessonsNonneg (createOrderS insertOk s r).2.1 ∧
    lessonsNonneg (createOrderTxn insertOk s r).2.1 ∧
    lessonsNonneg (cancelOrderS s oid).2.1 := by
  refine ⟨?_, ?_, ?_⟩
  · simp only [createOrderS]
    split
    · exact h
    · split
      · exact reserveAll_nonneg r.lessonIDs s.lessons h
      · split
        · exact reserveAll_nonneg r.lessonIDs s.lessons h
        · exact reserveAll_nonneg r.lessonIDs s.lessons h
  · simp only [createOrderTxn]
    split
    · exact h
    · split
      · exact h
      · split
        · exact reserveAll_nonneg r.lessonIDs s.lessons h
        · exact h
  · simp only [cancelOrderS]
    split
    · exact h
    · exact releaseAll_nonneg _ s.lessons h

/-- Witness: `c2_amended` applied at the concrete two-lesson store. -/
theorem c2_amended_witness :
    lessonsNonneg (createOrderS true storeAB reqAB).2.1 ∧
    lessonsNonneg (createOrderTxn true storeAB reqAB).2.1 ∧
    lessonsNonneg (cancelOrderS storeAB 0).2.1 :=
  c2_amended true storeAB reqAB 0 (by decide)

/-! ### Claim C3 -/

/-- C3 counterexample: `src/server.js` encodes a 2-unit booking of lesson 1
as `lessonIDs = [1, 1]`; against a lesson with only 1 seat the request is
rejected with CapacityExceeded, yet the count drops from 1 to 0 — refuting
"when the current count is smaller, the reservation is rejected and the
count is unchanged". -/
theorem c3_counterexample :
    (createOrderS true storeOne reqTwoUnits).1 = CreateResult.capacityExceeded 1 ∧
    spacesOf storeOne 1 = some 1 ∧
    spacesOf (createOrderS true storeOne reqTwoUnits).2.1 1 = some 0 := by
  decide

/-- C3 (amended): the reservation primitive of the code (`tryReserveOne`,
the conditional `findOneAndUpdate`) reserves exactly ONE unit at a time: it
decrements the count by 1 exactly when the lesson exists with count ≥ 1
(the code's `spaces > 0` guard), touches no other lesson, and rejects with
the lesson unchanged when the count is 0 or less; the boundary behaviour
holds per unit — with exactly 1 seat left a reservation succeeds leaving 0,
and the next reservation of that lesson is rejected. -/
theorem c3_amended (ls : Lessons) (id : LessonId) (l : Lesson)
    (h : lookupL ls id = some l) :
    (0 < l.spaces → ∃ ls₁, tryReserveOne ls id = some ls₁ ∧
        lookupL ls₁ id = some { l with spaces := l.spaces - 1 } ∧
        ∀ k, k ≠ id → lookupL ls₁ k = lookupL ls k) ∧
    (l.spaces ≤ 0 → tryReserveOne ls id = none) ∧
    (l.spaces = 1 → ∃ ls₁, tryReserveOne ls id = some ls₁ ∧
        lookupL ls₁ id = some { l with spaces := 0 } ∧
        tryReserveOne ls₁ id = none) := by
  refine ⟨?_, ?_, ?_⟩
  · intro hs
    refine ⟨setEntry ls id { l with spaces := l.spaces - 1 }, ?_, ?_, ?_⟩
    · rw [tryReserveOne, h]
      simp [hs]
    · exact lookupL_setEntry_self ls id _ l h
    · intro k hk
      exact lookupL_setEntry_ne ls id k _ hk
  · intro hs
    rw [tryReserveOne, h]
    simp [show ¬ 0 < l.spaces from by omega]
  · intro hs
    refine ⟨setEntry ls id { l with spaces := 0 }, ?_, ?_, ?_⟩
    · rw [tryReserveOne, h]
      simp [hs]
    · exact lookupL_setEntry_self ls id _ l h
    · have hl₁ : lookupL (setEntry ls id { l with spaces := 0 }) id
          = some { l with spaces := 0 } :=
        lookupL_setEntry_self ls id _ l h
      rw [tryReserveOne, hl₁]
      simp

/-- Witness: `c3_amended` applied at a concrete fully-booked lesson. -/
theorem c3_amended_witness :
    tryReserveOne [(1, lessonWith 0)] 1 = none :=
  (c3_amended [(1, lessonWith 0)] 1 (lessonWith 0) (by decide)).2.1 (by decide)

/-! ### Claim C4 -/

/-- Characterization of a successful `POST /orders` on `src/server.js`:
every reservation succeeded, the returned identifier is the fresh one, and
the new store carries the decremented lessons plus the appended order. -/
theorem createOrderS_created (s : Store) (r : OrderReq) (oid : OrderId) (s₁ : Store)
    (evs : List Ev) (h : createOrderS true s r = (.created oid, s₁, evs)) :
    (reserveAll s.lessons r.lessonIDs).1 = none ∧
    oid = s.nextOrderId ∧
    s₁ = { s with
      lessons := (reserveAll s.lessons r.lessonIDs).2.1,
      orders := s.orders ++ [(s.nextOrderId,
        { name := r.name, phone := r.phone, lessonIDs := r.lessonIDs,
          items := r.items, totalPrice := none })],
      nextOrderId := s.nextOrderId + 1 } := by
  simp only [createOrderS, insertOrder] at h
  split at h
  · exact absurd h (by simp)
  · split at h
    · exact absurd h (by simp)
    · split at h
      · rename_i hnone hcond
        simp only [Prod.mk.injEq, CreateResult.created.injEq] at h
        exact ⟨hnone, h.1.symm, h.2.1.symm⟩
      · rename_i hnone hcond
        exact absurd trivial hcond

/-- C4 (confirmed): a successful `CreateOrder` on `src/server.js` followed
by `CancelOrder` on the returned identifier succeeds, and every lesson's
remaining-seat count is back at its pre-creation value: each unit the
creation reserved is released again by the cancellation.  The freshness
hypothesis says the ledger ids predate the id counter, which `insertOrder`
maintains. -/
theorem c4_create_cancel_roundtrip (s : Store) (r : OrderReq) (oid : OrderId)
    (s₁ : Store) (evs : List Ev)
    (hfresh : ∀ p ∈ s.orders, p.1 < s.nextOrderId)
    (h : createOrderS true s r = (.created oid, s₁, evs)) :
    ∃ s₂ evs₂, cancelOrderS s₁ oid = (.deleted, s₂, evs₂) ∧
      ∀ k, spacesOf s₂ k = spacesOf s k := by
  obtain ⟨hnone, hoid, hs₁⟩ := createOrderS_created s r oid s₁ evs h
  subst hoid
  have hords : s₁.orders = s.orders ++ [(s.nextOrderId,
      { name := r.name, phone := r.phone, lessonIDs := r.lessonIDs,
        items := r.items, totalPrice := none })] := by
    rw [hs₁]
  have hlsn : s₁.lessons = (reserveAll s.lessons r.lessonIDs).2.1 := by
    rw [hs₁]
  have hres : reserveAll s.lessons r.lessonIDs =
      (none, (reserveAll s.lessons r.lessonIDs).2.1, (reserveAll s.lessons r.lessonIDs).2.2) := by
    rw [Prod.ext_iff]
    exact ⟨hnone, rfl⟩
  have hl2 : lookupL s₁.orders s.nextOrderId = some
      { name := r.name, phone := r.phone, lessonIDs := r.lessonIDs,
        items := r.items, totalPrice := none } := by
    rw [hords]
    exact lookupL_append_fresh s.orders s.nextOrderId _
      (fun p hp => Nat.ne_of_lt (hfresh p hp))
  have hcancel : cancelOrderS s₁ s.nextOrderId =
      (.deleted,
       { s₁ with
         lessons := (releaseAll s₁.lessons r.lessonIDs).1
         orders := removeEntry s₁.orders s.nextOrderId },
       (releaseAll s₁.lessons r.lessonIDs).2) := by
    rw [cancelOrderS, hl2]
  refine ⟨_, _, hcancel, fun k => ?_⟩
  show (lookupL (releaseAll s₁.lessons r.lessonIDs).1 k).map Lesson.spaces
      = (lookupL s.lessons k).map Lesson.spaces
  rw [releaseAll_lookup, hlsn, reserveAll_ok_lookup r.lessonIDs s.lessons _ _ hres k]
  cases hls : lookupL s.lessons k with
  | none => rfl
  | some l =>
    simp only [Option.map_some']
    refine congrArg some ?_
    show l.spaces - (r.lessonIDs.count k : Int) + (r.lessonIDs.count k : Int) = l.spaces
    ring

/-- Witness: `c4_create_cancel_roundtrip` at a concrete successful order. -/
theorem c4_roundtrip_witness :
    ∃ s₂ evs₂,
      cancelOrderS (createOrderS true storeAB reqOneUnit).2.1 0 = (.deleted, s₂, evs₂) ∧
      ∀ k, spacesOf s₂ k = spacesOf storeAB k :=
  c4_create_cancel_roundtrip storeAB reqOneUnit 0
    (createOrderS true storeAB reqOneUnit).2.1
    (createOrderS true storeAB reqOneUnit).2.2
    (by decide) (by decide)

/-! ### Claim C6 -/

/-- C6 (confirmed): on `src/server.js` `DELETE /orders/:id`, cancelling an
identifier absent from the ledger answers NotFound and performs no write at
all, and after a successful cancellation the same identifier is gone from
the ledger, so a second cancellation answers NotFound and changes nothing —
capacity is never released twice.  The hypothesis states ledger ids are
unique, which insertion under a strictly increasing counter maintains. -/
theorem c6_cancel_notfound_and_idempotent (s : Store) (oid : OrderId)
    (hnodup : (s.orders.map Prod.fst).Nodup) :
    (lookupL s.orders oid = none → cancelOrderS s oid = (.notFound, s, [])) ∧
    (∀ s₁ evs, cancelOrderS s oid = (.deleted, s₁, evs) →
      cancelOrderS s₁ oid = (.notFound, s₁, [])) := by
  constructor
  · intro hmiss
    rw [cancelOrderS, hmiss]
  · intro s₁ evs h
    cases hlo : lookupL s.orders oid with
    | none =>
      rw [cancelOrderS, hlo] at h
      exact absurd h (by simp)
    | some o =>
      rw [cancelOrderS, hlo] at h
      simp only [Prod.mk.injEq, true_and] at h
      have hords : s₁.orders = removeEntry s.orders oid := by
        rw [← h.1]
      have hmiss : lookupL s₁.orders oid = none := by
        rw [hords]
        exact lookupL_removeEntry_self_of_nodup s.orders oid hnodup
      rw [cancelOrderS, hmiss]

/-- A concrete active order and a ledger holding it. -/
def orderW : Order :=
  { name := "Alice", phone := "0123456789", lessonIDs := [1],
    items := [⟨1, 15, 1⟩], totalPrice := none }

/-- Store with one lesson and one active order, id counter ahead of ids. -/
def storeOrd : Store :=
  { lessons := [(1, lessonWith 3)], orders := [(7, orderW)], nextOrderId := 8 }

/-- Witness: `c6_cancel_notfound_and_idempotent` at the concrete ledger. -/
theorem c6_witness :
    cancelOrderS storeOrd 9 = (.notFound, storeOrd, []) ∧
    cancelOrderS (cancelOrderS storeOrd 7).2.1 7
      = (.notFound, (cancelOrderS storeOrd 7).2.1, []) :=
  ⟨(c6_cancel_notfound_and_idempotent storeOrd 9 (by decide)).1 (by decide),
   (c6_cancel_notfound_and_idempotent storeOrd 7 (by decide)).2
     (cancelOrderS storeOrd 7).2.1 (cancelOrderS storeOrd 7).2.2 (by decide)⟩

/-! ### Claim C7 -/

/-- Request with a zero (non-positive) unit count in its only item. -/
def reqQty0 : OrderReq :=
  { name := "Dan", phone := "030", lessonIDs := [1], items := [⟨1, 15, 0⟩] }

/-- C7 counterexample: `src/server.js` never checks item unit counts; a
request whose only item asks for 0 units passes validation, decrements
lesson 1, and persists an order — not the InvalidInput rejection before any
store mutation that the claim requires. -/
theorem c7_counterexample :
    (createOrderS true storeAB reqQty0).1 = CreateResult.created 0 ∧
    spacesOf storeAB 1 = some 5 ∧
    spacesOf (createOrderS true storeAB reqQty0).2.1 1 = some 4 ∧
    (createOrderS true storeAB reqQty0).2.1.orders ≠ [] := by
  decide

/-- C7 (amended): requests with an empty customer name, an empty phone, or
an empty items list are rejected as invalid input before any store
mutation, by `src/server.js` and the transactional variant alike; the
positivity of each item's unit count is NOT validated anywhere. -/
theorem c7_amended (insertOk : Bool) (s : Store) (r : OrderReq)
    (h : r.name = "" ∨ r.phone = "" ∨ r.items = []) :
    createOrderS insertOk s r = (.invalidInput, s, []) ∧
    createOrderTxn insertOk s r = (.invalidInput, s, []) := by
  constructor
  · rw [createOrderS]
    exact if_pos h
  · rw [createOrderTxn]
    exact if_pos h

/-- Request with an empty customer name. -/
def reqNoName : OrderReq :=
  { name := "", phone := "055", lessonIDs := [1], items := [⟨1, 15, 1⟩] }

/-- Witness: `c7_amended` at the concrete empty-name request. -/
theorem c7_amended_witness :
    createOrderS true storeAB reqNoName = (.invalidInput, storeAB, []) ∧
    createOrderTxn true storeAB reqNoName = (.invalidInput, storeAB, []) :=
  c7_amended true storeAB reqNoName (Or.inl rfl)

/-! ### Claim C8 -/

/-- Update body carrying only the non-whitelisted key `subject`. -/
def uHack : LessonUpdate :=
  { title := none, lessonText := none, spaces := none, date := none,
    price := none, subject := some "Hacked", location := none, image := none }

/-- C8 counterexample: the unfiltered `PUT /lessons/:id` of the totalPrice
variant applies the raw body as `$set`, so a body carrying the
non-whitelisted key `subject` rewrites the stored lesson's subject — the
claim that fields outside the whitelist never change is false there. -/
theorem c8_counterexample :
    (updateLessonU storeOne 1 uHack).map (fun s => (lookupL s.lessons 1).map Lesson.subject)
      = some (some "Hacked") ∧
    (lookupL storeOne.lessons 1).map Lesson.subject = some "Math" := by
  decide

/-- C8 (amended): through `src/server.js`'s `PUT /lessons/:id` (the
whitelist-filtering route, like the first section of part_000), only the
whitelisted fields of the addressed lesson can change: its `subject`,
`location` and `image` are untouched whatever keys the body carries, every
other lesson is untouched entirely, and the orders ledger is untouched;
the unfiltered variant instead applies every key of the body. -/
theorem c8_amended (s s₁ : Store) (id : LessonId) (u : LessonUpdate)
    (h : updateLessonS s id u = some s₁) :
    (∀ k, (lookupL s₁.lessons k).map Lesson.subject = (lookupL s.lessons k).map Lesson.subject ∧
          (lookupL s₁.lessons k).map Lesson.location = (lookupL s.lessons k).map Lesson.location ∧
          (lookupL s₁.lessons k).map Lesson.image = (lookupL s.lessons k).map Lesson.image) ∧
    (∀ k, k ≠ id → lookupL s₁.lessons k = lookupL s.lessons k) ∧
    s₁.orders = s.orders := by
  cases hl : lookupL s.lessons id with
  | none =>
    rw [updateLessonS, hl] at h
    exact absurd h (by simp)
  | some l =>
    have hsome : updateLessonS s id u =
        some { s with lessons := setEntry s.lessons id (applyWhitelisted l u) } := by
      rw [updateLessonS, hl]
    have hs₁ : s₁ = { s with lessons := setEntry s.lessons id (applyWhitelisted l u) } :=
      (Option.some.inj (hsome.symm.trans h)).symm
    subst hs₁
    refine ⟨fun k => ?_, fun k hk => lookupL_setEntry_ne s.lessons id k _ hk, rfl⟩
    by_cases hk : k = id
    · subst hk
      have hset := lookupL_setEntry_self s.lessons k (applyWhitelisted l u) l hl
      show (lookupL (setEntry s.lessons k (applyWhitelisted l u)) k).map Lesson.subject
          = (lookupL s.lessons k).map Lesson.subject ∧ _
      rw [hset, hl]
      exact ⟨rfl, rfl, rfl⟩
    · have hset := lookupL_setEntry_ne s.lessons id k (applyWhitelisted l u) hk
      show (lookupL (setEntry s.lessons id (applyWhitelisted l u)) k).map Lesson.subject
          = (lookupL s.lessons k).map Lesson.subject ∧ _
      rw [hset]
      exact ⟨rfl, rfl, rfl⟩

/-- Whitelisted-only update body (new title, new spaces). -/
def uTitle : LessonUpdate :=
  { title := some "New", lessonText := none, spaces := some 2, date := none,
    price := none, subject := none, location := none, image := none }

/-- Witness: `c8_amended` at a concrete whitelisted update. -/
theorem c8_amended_witness :
    ((updateLessonS storeOne 1 uTitle).getD storeOne).orders = storeOne.orders :=
  (c8_amended storeOne ((updateLessonS storeOne 1 uTitle).getD storeOne) 1 uTitle
    (by decide)).2.2

/-! ### Claim C9 -/

/-- C9 (confirmed): on `src/server.js`, a request whose `lessonIDs` is the
empty array passes validation whenever name, phone and `items` are
non-empty (in JS an empty array is truthy, and only `items.length` is
checked); the reservation loop then runs zero times, so an order is
persisted under the fresh identifier while every lesson — the whole
`lessons` collection — is unchanged. -/
theorem c9_empty_lessonIDs (s : Store) (r : OrderReq)
    (hids : r.lessonIDs = []) (hname : ¬ r.name = "") (hphone : ¬ r.phone = "")
    (hitems : ¬ r.items = []) :
    createOrderS true s r =
      (.created s.nextOrderId,
       { s with
         orders := s.orders ++ [(s.nextOrderId,
           { name := r.name, phone := r.phone, lessonIDs := r.lessonIDs,
             items := r.items, totalPrice := none })]
         nextOrderId := s.nextOrderId + 1 },
       [Ev.persist s.nextOrderId]) := by
  rw [createOrderS, hids, if_neg (by simp [hname, hphone, hitems])]
  rfl

/-- Request listing no lessons but one item. -/
def reqOnlyItems : OrderReq :=
  { name := "Eve", phone := "040", lessonIDs := [], items := [⟨1, 15, 1⟩] }

/-- Witness: `c9_empty_lessonIDs` at the concrete empty-`lessonIDs` request. -/
theorem c9_witness :
    createOrderS true storeAB reqOnlyItems =
      (.created storeAB.nextOrderId,
       { storeAB with
         orders := storeAB.orders ++ [(storeAB.nextOrderId,
           { name := reqOnlyItems.name, phone := reqOnlyItems.phone,
             lessonIDs := reqOnlyItems.lessonIDs, items := reqOnlyItems.items,
             totalPrice := none })]
         nextOrderId := storeAB.nextOrderId + 1 },
       [Ev.persist storeAB.nextOrderId]) :=
  c9_empty_lessonIDs storeAB reqOnlyItems rfl (by decide) (by decide) (by decide)

/-! ### Claim C10 -/

/-- The precheck loop only ever reports a missing lesson or an exceeded
capacity, never a successful creation. -/
theorem precheckU_ne_created (ls : Lessons) (its : List Item) (e : CreateResult)
    (h : precheckU ls its = some e) (oid : OrderId) : e ≠ CreateResult.created oid := by
  induction its with
  | nil => simp [precheckU] at h
  | cons i rest ih =>
    rw [precheckU] at h
    cases hl : lookupL ls i.lessonId with
    | none =>
      rw [hl] at h
      simp only [Option.some.injEq] at h
      rw [← h]
      simp
    | some l =>
      rw [hl] at h
      by_cases hq : l.spaces < i.quantity
      · simp only [if_pos hq, Option.some.injEq] at h
        rw [← h]
        simp
      · simp only [if_neg hq] at h
        exact ih h

/-- Total of a request computed by the code's `reduce`, as a sum. -/
theorem foldl_add_mul_eq_sum (l : List Item) (a : Int) :
    l.foldl (fun acc i => acc + i.price * i.quantity) a
      = a + (l.map (fun i => i.price * i.quantity)).sum := by
  induction l generalizing a with
  | nil => simp
  | cons i rest ih =>
    simp only [List.foldl_cons, List.map_cons, List.sum_cons, ih]
    ring

/-- C10 (confirmed): when the totalPrice variant's `POST /orders` succeeds,
the order it appends to the ledger stores exactly
`Σ item.price * item.quantity` over the request's own items — a function of
the request body alone; the stored lessons' price fields do not enter. -/
theorem c10_totalPrice (s : Store) (r : OrderReq) (oid : OrderId) (s₁ : Store)
    (evs : List Ev) (h : createOrderU s r = (.created oid, s₁, evs)) :
    oid = s.nextOrderId ∧
    s₁.orders = s.orders ++ [(s.nextOrderId,
      { name := r.name, phone := r.phone, lessonIDs := r.lessonIDs, items := r.items,
        totalPrice := some ((r.items.map (fun i => i.price * i.quantity)).sum) })] := by
  simp only [createOrderU, insertOrder] at h
  split at h
  · exact absurd h (by simp)
  · split at h
    · rename_i err heq
      simp only [Prod.mk.injEq] at h
      exact absurd h.1 (precheckU_ne_created s.lessons r.items err heq oid)
    · simp only [Prod.mk.injEq, CreateResult.created.injEq] at h
      obtain ⟨h1, h2, _⟩ := h
      refine ⟨h1.symm, ?_⟩
      have hfold : r.items.foldl (fun acc i => acc + i.price * i.quantity) 0
          = (r.items.map (fun i => i.price * i.quantity)).sum := by
        rw [foldl_add_mul_eq_sum]
        ring
      rw [← h2, ← hfold]

/-- Request for the totalPrice variant: 2 units of lesson 1 at price 10. -/
def reqU : OrderReq :=
  { name := "Fay", phone := "060", lessonIDs := [1], items := [⟨1, 10, 2⟩] }

/-- Witness: `c10_totalPrice` at the concrete request (total 10 * 2 = 20). -/
theorem c10_witness :
    0 = storeAB.nextOrderId ∧
    (createOrderU storeAB reqU).2.1.orders = storeAB.orders ++ [(storeAB.nextOrderId,
      { name := reqU.name, phone := reqU.phone, lessonIDs := reqU.lessonIDs,
        items := reqU.items,
        totalPrice := some ((reqU.items.map (fun i => i.price * i.quantity)).sum) })] :=
  c10_totalPrice storeAB reqU 0 (createOrderU storeAB reqU).2.1
    (createOrderU storeAB reqU).2.2 (by decide)

/-! ### Claim C5 -/

/-- C5 counterexample: on the totalPrice variant, a successful creation
emits the order-persist write BEFORE the capacity decrement — the trace is
`[persist 0, reserve 1]`, violating "persisted strictly after all capacity
reservations". -/
theorem c5_counterexample :
    (createOrderU storeAB reqU).1 = CreateResult.created 0 ∧
    (createOrderU storeAB reqU).2.2 = [Ev.persist 0, Ev.reserve 1] ∧
    noReserveAfterPersist (createOrderU storeAB reqU).2.2 = false := by
  decide

/-- C5 (amended): in `src/server.js` and the transactional variant, the
order-persist write is issued only after every capacity decrement of the
attempt (no decrement ever follows a persist in the trace), and when
persistence itself fails the transactional variant returns the pre-call
store — its reservations are unwound; the totalPrice variant instead
persists the order before decrementing. -/
theorem c5_amended (insertOk : Bool) (s : Store) (r : OrderReq) :
    noReserveAfterPersist (createOrderS insertOk s r).2.2 = true ∧
    noReserveAfterPersist (createOrderTxn insertOk s r).2.2 = true ∧
    (createOrderTxn false s r).2.1 = s := by
  refine ⟨?_, ?_, ?_⟩
  · simp only [createOrderS]
    split
    · rfl
    · split
      · exact noReserveAfterPersist_of_all_reserve _
          (reserveAll_events_reserve r.lessonIDs s.lessons)
      · split
        · exact noReserveAfterPersist_append_persist _ _
            (reserveAll_events_reserve r.lessonIDs s.lessons)
        · exact noReserveAfterPersist_of_all_reserve _
            (reserveAll_events_reserve r.lessonIDs s.lessons)
  · simp only [createOrderTxn]
    split
    · rfl
    · split
      · exact noReserveAfterPersist_of_all_reserve _
          (reserveAll_events_reserve r.lessonIDs s.lessons)
      · split
        · exact noReserveAfterPersist_append_persist _ _
            (reserveAll_events_reserve r.lessonIDs s.lessons)
        · exact noReserveAfterPersist_of_all_reserve _
            (reserveAll_events_reserve r.lessonIDs s.lessons)
  · simp only [createOrderTxn]
    split
    · rfl
    · split
      · rfl
      · rfl

end ExtraClass
